import Mathlib

/-!
# Verification of the DOC RAG server backend ingestion/retrieval pipeline

Shallow embedding of `app/ingest.py`, `app/llm.py` and `app/vectorstore.py`.
Python strings are modelled as `List Char` (`PyStr`): Python `len`, slicing
`s[:n]` and concatenation correspond to `List.length`, `List.take` and `++`.
Dictionaries are modelled as ordered association lists (Python dicts preserve
insertion order).  External collaborators (the Qdrant client, the embedding
model, HTTP calls to LLM providers) are modelled by explicit state or by
outcome parameters, following the behaviour the code relies on.
-/

set_option autoImplicit false

namespace DocRag

/-- Python strings as character lists. -/
abbrev PyStr := List Char

/-- Coerce a Lean string literal to the Python string model. -/
def pyStr (s : String) : PyStr := s.data

/-- `sep.join(parts)` from Python: interleave `sep` between the parts. -/
def joinSep (sep : PyStr) : List PyStr → PyStr
  | [] => []
  | [x] => x
  | x :: y :: xs => x ++ sep ++ joinSep sep (y :: xs)

/-- `t` occurs as a contiguous substring of `s` (the Python operator `in` on strings). -/
def strContains (s t : PyStr) : Prop := ∃ pre post, s = pre ++ t ++ post

/-- JSON values, the parse result of `json.loads`. -/
inductive Json where
  | null
  | bool (b : Bool)
  | num (n : Int)
  | str (s : String)
  | arr (items : List Json)
  | obj (fields : List (String × Json))

/-- Hex digit for `\uXXXX` escapes. -/
def hexDigit (n : Nat) : Char :=
  if n < 10 then Char.ofNat (48 + n) else Char.ofNat (87 + n)

/-- JSON string escaping as `json.dumps` performs it (`ensure_ascii=False`:
non-ASCII characters pass through; quotes, backslashes and control
characters are escaped). -/
def escapeChar (c : Char) : PyStr :=
  if c = '"' then ['\\', '"']
  else if c = '\\' then ['\\', '\\']
  else if c = '\n' then ['\\', 'n']
  else if c = '\t' then ['\\', 't']
  else if c = '\r' then ['\\', 'r']
  else if c.toNat < 32 then
    ['\\', 'u', hexDigit (c.toNat / 4096 % 16), hexDigit (c.toNat / 256 % 16),
     hexDigit (c.toNat / 16 % 16), hexDigit (c.toNat % 16)]
  else [c]

/-- Serialized form of a JSON string literal. -/
def dumpString (s : String) : PyStr :=
  '"' :: (s.data.map escapeChar).flatten ++ ['"']

mutual
/-- `json.dumps(item, ensure_ascii=False)` with the Python default separators
`", "` and `": "`.  Total on the `Json` model, so the `except` fallback to
`str(item)` in `_json_item_to_text` is unreachable here. -/
def jsonDumps : Json → PyStr
  | .null => pyStr "null"
  | .bool true => pyStr "true"
  | .bool false => pyStr "false"
  | .num n => (toString n).data
  | .str s => dumpString s
  | .arr items => '[' :: dumpsList items ++ [']']
  | .obj fields => '\x7b' :: dumpsFields fields ++ ['\x7d']

/-- Comma-separated serialization of array elements. -/
def dumpsList : List Json → PyStr
  | [] => []
  | [x] => jsonDumps x
  | x :: y :: xs => jsonDumps x ++ pyStr ", " ++ dumpsList (y :: xs)

/-- Comma-separated serialization of object fields. -/
def dumpsFields : List (String × Json) → PyStr
  | [] => []
  | [(k, v)] => dumpString k ++ pyStr ": " ++ jsonDumps v
  | (k, v) :: y :: xs => dumpString k ++ pyStr ": " ++ jsonDumps v ++ pyStr ", " ++ dumpsFields (y :: xs)
end

/-- A CSV row as produced by `csv.DictReader`: column name to value, where a
value can be `None`.  Keys and values are Python strings. -/
abbrev Row := List (PyStr × Option PyStr)

/-- A record destined for the vector store (`VectorRecord` in
`app/vectorstore.py`).  The `id` field — a fresh random UUID per record,
never inspected by any code path under verification — is omitted from the
model. -/
structure VectorRecord where
  text : PyStr
  metadata : List (String × Json)

/-- Loop body of `_row_to_text`: a `None` value is skipped, a value longer
than 300 characters is cut to its first 300 characters plus an ellipsis,
and the pair is rendered as the key, a colon and a space, then the value. -/
def rowPair (kv : PyStr × Option PyStr) : Option PyStr :=
  match kv.2 with
  | none => none
  | some v =>
    let s := if v.length > 300 then v.take 300 ++ ['…'] else v
    some (kv.1 ++ pyStr ": " ++ s)

/-- `_row_to_text` from `app/ingest.py`: flatten a row into readable text,
trimming very long fields, joined with `" | "` after the source prefix. -/
def row_to_text (row : Row) (file_path : PyStr) (index : Nat) : PyStr :=
  pyStr "Source: " ++ file_path ++ pyStr " | Row: " ++ (toString index).data ++ pyStr "\n"
    ++ joinSep (pyStr " | ") (row.filterMap rowPair)

/-- `_json_item_to_text` from `app/ingest.py`: serialize the item compactly
and cut the serialization to its first 1000 characters plus an ellipsis when
longer. -/
def json_item_to_text (item : Json) (file_path : PyStr) (index : Nat) : PyStr :=
  let s := jsonDumps item
  let s := if s.length > 1000 then s.take 1000 ++ ['…'] else s
  pyStr "Source: " ++ file_path ++ pyStr " | Item: " ++ (toString index).data ++ pyStr "\n" ++ s

/-- `_iter_csv_records` from `app/ingest.py`: one record per data row, in row
order. -/
def iter_csv_records (csv_path : PyStr) (rows : List Row) : List VectorRecord :=
  rows.enum.map fun p =>
    { text := row_to_text p.2 csv_path p.1
      metadata := [("source", .str (String.mk csv_path)), ("row_index", .num p.1), ("type", .str "csv")] }

/-- List-typed values of a dict, in insertion order (the Python comprehension
`[v for v in content.values() if isinstance(v, list)]`). -/
def listValues (fields : List (String × Json)) : List (List Json) :=
  fields.filterMap fun kv =>
    match kv.2 with
    | .arr l => some l
    | _ => none

/-- Item extraction of `_iter_json_records`: a list root yields its elements,
a dict root yields the first list-typed value (or the dict itself when there
is none), any other root is wrapped as a single item. -/
def jsonItems (content : Json) : List Json :=
  match content with
  | .arr items => items
  | .obj fields =>
    match listValues fields with
    | l :: _ => l
    | [] => [content]
  | other => [other]

/-- `_iter_json_records` from `app/ingest.py`, applied to a successfully
parsed root (a parse failure yields `[]` before this logic runs).  Non-dict
items are wrapped into an object under a single `value` key before serialization. -/
def iter_json_records (json_path : PyStr) (content : Json) : List VectorRecord :=
  (jsonItems content).enum.map fun p =>
    let item := match p.2 with
      | .obj fields => Json.obj fields
      | other => Json.obj [("value", other)]
    { text := json_item_to_text item json_path p.1
      metadata := [("source", .str (String.mk json_path)), ("item_index", .num p.1), ("type", .str "json")] }

/-- The `_yield_batches` closure of `ingest_data`, accumulator state made
explicit: `batch` is the pending batch, filled element by element and
yielded once its length reaches `size`; a nonempty remainder is yielded at
end of stream. -/
def yieldBatchesAux {α : Type} (size : Nat) : List α → List α → List (List α)
  | batch, [] => if batch.isEmpty then [] else [batch]
  | batch, x :: xs =>
    let batch' := batch ++ [x]
    if batch'.length ≥ size then batch' :: yieldBatchesAux size [] xs
    else yieldBatchesAux size batch' xs

/-- `_yield_batches(iterable, size)` from `app/ingest.py`. -/
def yield_batches {α : Type} (l : List α) (size : Nat) : List (List α) :=
  yieldBatchesAux size [] l

/-- A file discovered under the data root.  `files` below is kept in
directory-traversal order, the order in which `Path.rglob` enumerates; a
`jsonF` with `none` content is a malformed file (`json.loads` raised). -/
inductive FileEntry where
  | csv (path : PyStr) (rows : List Row)
  | jsonF (path : PyStr) (content : Option Json)

/-- The data-root directory as `ingest_data` observes it. -/
structure FileSystem where
  rootExists : Bool
  rootPath : PyStr
  files : List FileEntry

/-- `root.rglob("*.csv")`: the CSV files, in traversal order. -/
def csvFiles (fs : FileSystem) : List (PyStr × List Row) :=
  fs.files.filterMap fun f =>
    match f with
    | .csv p rows => some (p, rows)
    | _ => none

/-- `root.rglob("*.json")`: the JSON files, in traversal order. -/
def jsonFiles (fs : FileSystem) : List (PyStr × Option Json) :=
  fs.files.filterMap fun f =>
    match f with
    | .jsonF p content => some (p, content)
    | _ => none

/-- Records of one JSON file: a parse failure short-circuits to `[]`. -/
def jsonFileRecords (p : PyStr × Option Json) : List VectorRecord :=
  match p.2 with
  | some content => iter_json_records p.1 content
  | none => []

/-- `batch_size or settings.batch_size`: the Python `or` falls back to the
configured default (64) when the argument is absent or falsy (0). -/
def resolveBatchSize (batch_size : Option Nat) : Nat :=
  match batch_size with
  | some b => if b = 0 then 64 else b
  | none => 64

/-- `ingest_data` from `app/ingest.py`.  Returns the sequence of `upsert`
calls (one list of records per call, in call order) together with the
returned total, or the `FileNotFoundError` message when the root is absent.
`upsert` returns the number of points written, so `total` accumulates the
batch lengths. -/
def ingest_data (fs : FileSystem) (batch_size : Option Nat) :
    Except PyStr (List (List VectorRecord) × Nat) :=
  if fs.rootExists then
    let bs := resolveBatchSize batch_size
    let csvBatches :=
      (csvFiles fs).map (fun p => yield_batches (iter_csv_records p.1 p.2) bs)
    let jsonBatches :=
      (jsonFiles fs).map (fun p => yield_batches (jsonFileRecords p) bs)
    let batches := csvBatches.flatten ++ jsonBatches.flatten
    .ok (batches, (batches.map List.length).sum)
  else
    .error (pyStr "Data root not found: " ++ fs.rootPath)

/-- The sequence of `upsert` calls a run issues (empty when the run fails
before processing). -/
def upsertCalls (fs : FileSystem) (batch_size : Option Nat) : List (List VectorRecord) :=
  match ingest_data fs batch_size with
  | .ok r => r.1
  | .error _ => []

/-- The full sequence of records a run sends to the vector store, in the
order sent. -/
def sentRecords (fs : FileSystem) (batch_size : Option Nat) : List VectorRecord :=
  (upsertCalls fs batch_size).flatten

/-- Records of one discovered file, whatever its type. -/
def fileRecords (f : FileEntry) : List VectorRecord :=
  match f with
  | .csv p rows => iter_csv_records p rows
  | .jsonF p content => jsonFileRecords (p, content)

/-! ## `app/llm.py` -/

/-- The two configuration fields `generate_answer` consults. -/
structure LLMConfig where
  ollama_host : Option PyStr
  openai_api_key : Option PyStr

/-- Outcome of the HTTP POST to Ollama: a transport failure (the `except`
path) or a response with a status code and the `response` field of its JSON
body (`none` when the field is absent). -/
inductive OllamaOutcome where
  | failure
  | response (status : Nat) (text : Option PyStr)

/-- The fixed notice of the deterministic fallback. -/
def noLLMNotice : PyStr :=
  pyStr "[Hinweis] Kein LLM konfiguriert (OLLAMA_HOST oder OPENAI_API_KEY).\nTop-Treffer aus Qdrant:\n"

/-- The divider joining fallback contexts. -/
def contextDivider : PyStr := pyStr "\n---\n"

/-- `generate_answer` from `app/llm.py`.  The two provider calls are
external; their outcomes are passed as parameters.  With an Ollama host
configured, a 200 response returns its `response` field (default `""`);
any other outcome falls through.  With an OpenAI key configured, the hosted
completion (default `""` for a null message) is returned.  Otherwise the
deterministic fallback concatenates the first three contexts. -/
def generate_answer (cfg : LLMConfig) (ollama : OllamaOutcome)
    (openaiContent : Option PyStr) (_query : PyStr) (contexts : List PyStr) : PyStr :=
  -- the query enters only the prompt sent to the external providers
  let fromOpenAI :=
    match cfg.openai_api_key with
    | some _ => openaiContent.getD []
    | none => noLLMNotice ++ joinSep contextDivider (contexts.take 3)
  match cfg.ollama_host with
  | some _ =>
    match ollama with
    | .response 200 text => text.getD []
    | _ => fromOpenAI
  | none => fromOpenAI

/-! ## `app/vectorstore.py` -/

/-- Distance metrics of the vector index. -/
inductive Distance where
  | cosine
  | euclid
  | dot
  deriving DecidableEq

/-- The vector configuration of a collection (`qmodels.VectorParams`). -/
structure VectorParams where
  size : Nat
  distance : Distance
  deriving DecidableEq

/-- The external Qdrant service state visible to the adapter: the named
collections with their vector configuration. -/
structure QdrantState where
  collections : List (String × VectorParams)

/-- Python `dict`-style lookup on an ordered association list. -/
def lookupKey {β : Type} (k : String) : List (String × β) → Option β
  | [] => none
  | kv :: rest => if kv.1 = k then some kv.2 else lookupKey k rest

/-- `client.get_collection(name)`: collection info when the collection
exists, an exception (modelled as `none`) otherwise. -/
def get_collection (st : QdrantState) (name : String) : Option VectorParams :=
  lookupKey name st.collections

/-- `client.recreate_collection`: drop any collection of that name, then
create it with the given vector parameters. -/
def recreate_collection (st : QdrantState) (name : String) (params : VectorParams) : QdrantState :=
  ⟨(name, params) :: st.collections.filter (fun kv => kv.1 ≠ name)⟩

/-- `QdrantVectorStore._ensure_collection`: probe with `get_collection`;
only when that fails is the collection (re)created with the embedding
dimensionality under cosine distance. -/
def ensure_collection (st : QdrantState) (name : String) (dim : Nat) : QdrantState :=
  match get_collection st name with
  | some _ => st
  | none => recreate_collection st name ⟨dim, .cosine⟩

/-- A raw hit as the Qdrant client returns it from `client.search`:
id, similarity score, and the stored payload (`None` possible).  Scores are
floats in the source; they are carried through untouched, modelled as `ℚ`. -/
structure RawHit where
  id : String
  score : ℚ
  payload : Option (List (String × Json))

/-- A search result as `QdrantVectorStore.search` shapes it. -/
structure SearchResult where
  id : String
  score : ℚ
  text : Json
  metadata : List (String × Json)

/-- The per-hit transformation in `QdrantVectorStore.search`:
`payload = h.payload or {}`, `text = payload.get("text", "")`, and
`metadata` is the payload with the `"text"` key removed. -/
def searchResultOfHit (h : RawHit) : SearchResult :=
  let payload := h.payload.getD []
  { id := h.id
    score := h.score
    text := (lookupKey "text" payload).getD (.str "")
    metadata := payload.filter (fun kv => kv.1 ≠ "text") }

/-- `QdrantVectorStore.search` after the external nearest-neighbour query:
shape each raw hit.  The query embedding and the ANN call itself are
external; their result is the `hits` parameter. -/
def searchResults (hits : List RawHit) : List SearchResult :=
  hits.map searchResultOfHit

/-- Outcome of `client.count`: an exception, or a result object whose
`count` attribute may be absent (`getattr(res, "count", 0)`). -/
inductive CountOutcome where
  | failure
  | result (count : Option Nat)

/-- `QdrantVectorStore.count`: resolve the target collection, query the
client, report 0 on any failure. -/
def store_count (name : Option String) (selfCollection : String)
    (clientCount : String → CountOutcome) : Nat :=
  let target := name.getD selfCollection
  match clientCount target with
  | .result r => r.getD 0
  | .failure => 0

/-- Projection used to observe the `type` metadata field of a record without
evaluating its text. -/
def recordType (r : VectorRecord) : Option String :=
  match lookupKey "type" r.metadata with
  | some (.str s) => some s
  | _ => none

/-! Concrete fixtures used by counterexamples and witnesses. -/

/-- Two CSV files of one data row each. -/
def twoCsvFs : FileSystem :=
  ⟨true, pyStr "/data",
    [.csv (pyStr "a.csv") [[(pyStr "k", some (pyStr "v"))]],
     .csv (pyStr "b.csv") [[(pyStr "k", some (pyStr "w"))]]]⟩

/-- A JSON file discovered before a CSV file in the directory walk. -/
def mixedFs : FileSystem :=
  ⟨true, pyStr "/data",
    [.jsonF (pyStr "a.json") (some (.str "x")),
     .csv (pyStr "b.csv") [[(pyStr "k", some (pyStr "v"))]]]⟩

/-- A data root that does not exist, with a file that would otherwise be
ingested. -/
def missingRootFs : FileSystem :=
  ⟨false, pyStr "/missing",
    [.csv (pyStr "a.csv") [[(pyStr "k", some (pyStr "v"))]]]⟩

/-- A Qdrant service holding one collection. -/
def oneCollectionSt : QdrantState := ⟨[("amazon_export", ⟨384, .cosine⟩)]⟩

/-- One raw hit with a stored payload. -/
def oneHit : List RawHit :=
  [⟨"p1", 9 / 10, some [("text", .str "T"), ("source", .str "a.csv")]⟩]

end DocRag

namespace DocRag

-- Sanity checks of the batching model against the Python behaviour.
example : yield_batches [1, 2, 3, 4, 5] 2 = [[1, 2], [3, 4], [5]] := by decide
example : yield_batches ([] : List Nat) 3 = [] := by decide
example : yield_batches [1, 2, 3, 4] 2 = [[1, 2], [3, 4]] := by decide

/-! ## Batching lemmas (`_yield_batches`) -/

lemma flatten_yieldBatchesAux {α : Type} (size : Nat) (batch l : List α) :
    (yieldBatchesAux size batch l).flatten = batch ++ l := by
  induction l generalizing batch with
  | nil =>
    by_cases h : batch.isEmpty
    · simp [yieldBatchesAux, h, List.isEmpty_iff.mp h]
    · simp [yieldBatchesAux, h]
  | cons x xs ih =>
    simp only [yieldBatchesAux]
    split
    · simp [ih]
    · simp [ih]

lemma length_yieldBatchesAux {α : Type} (size : Nat) (hsize : 1 ≤ size) (batch l : List α)
    (hb : batch.length < size) :
    (yieldBatchesAux size batch l).length = (batch.length + l.length + size - 1) / size := by
  induction l generalizing batch with
  | nil =>
    by_cases h : batch.isEmpty
    · have h0 : batch.length = 0 := by simp [List.isEmpty_iff.mp h]
      simp [yieldBatchesAux, h, h0, Nat.div_eq_of_lt (by omega : size - 1 < size)]
    · have h1 : 1 ≤ batch.length := by
        cases batch with
        | nil => simp at h
        | cons a as => simp
      have hdiv : (batch.length + size - 1) / size = 1 := by
        apply Nat.div_eq_of_lt_le <;> omega
      simp [yieldBatchesAux, h, hdiv]
  | cons x xs ih =>
    simp only [yieldBatchesAux]
    split
    · rename_i h
      have hsz : batch.length + 1 = size := by
        simp only [List.length_append, List.length_cons, List.length_nil] at h
        omega
      rw [List.length_cons, ih [] (by simp only [List.length_nil]; omega)]
      simp only [List.length_nil, List.length_cons, Nat.zero_add]
      rw [show batch.length + (xs.length + 1) + size - 1 = xs.length + size - 1 + size by omega]
      rw [Nat.add_div_right _ (show 0 < size by omega)]
    · rename_i h
      have hb' : (batch ++ [x]).length < size := by
        simp only [List.length_append, List.length_cons, List.length_nil] at h ⊢
        omega
      rw [ih (batch ++ [x]) hb']
      congr 1
      simp only [List.length_append, List.length_cons, List.length_nil]
      omega

lemma length_le_of_mem_yieldBatchesAux {α : Type} (size : Nat) (batch l : List α)
    (hb : batch.length < size) {b : List α}
    (hmem : b ∈ yieldBatchesAux size batch l) : b.length ≤ size := by
  induction l generalizing batch with
  | nil =>
    by_cases h : batch.isEmpty <;> simp [yieldBatchesAux, h] at hmem
    subst hmem
    omega
  | cons x xs ih =>
    simp only [yieldBatchesAux] at hmem
    split at hmem
    · rcases List.mem_cons.mp hmem with rfl | hmem'
      · simp only [List.length_append, List.length_cons, List.length_nil]
        omega
      · exact ih [] (by simp only [List.length_nil]; omega) hmem'
    · rename_i h
      have hb' : (batch ++ [x]).length < size := by
        simp only [List.length_append, List.length_cons, List.length_nil] at h ⊢
        omega
      exact ih (batch ++ [x]) hb' hmem

lemma yieldBatchesAux_ne_nil {α : Type} (size : Nat) (batch : List α) {l : List α}
    (hl : l ≠ []) : yieldBatchesAux size batch l ≠ [] := by
  induction l generalizing batch with
  | nil => exact absurd rfl hl
  | cons x xs ih =>
    simp only [yieldBatchesAux]
    split
    · simp
    · cases xs with
      | nil => simp [yieldBatchesAux]
      | cons y ys => exact ih (batch ++ [x]) (by simp)

lemma length_eq_of_mem_dropLast_yieldBatchesAux {α : Type} (size : Nat) (batch l : List α)
    (hb : batch.length < size) {b : List α}
    (hmem : b ∈ (yieldBatchesAux size batch l).dropLast) : b.length = size := by
  induction l generalizing batch with
  | nil => by_cases h : batch.isEmpty <;> simp [yieldBatchesAux, h] at hmem
  | cons x xs ih =>
    simp only [yieldBatchesAux] at hmem
    split at hmem
    · rename_i h
      have hsz : (batch ++ [x]).length = size := by
        simp only [List.length_append, List.length_cons, List.length_nil] at h ⊢
        omega
      cases hr : yieldBatchesAux size [] xs with
      | nil => rw [hr] at hmem; simp at hmem
      | cons r rs =>
        rw [hr, List.dropLast_cons₂] at hmem
        rcases List.mem_cons.mp hmem with rfl | hmem'
        · exact hsz
        · exact ih [] (by simp only [List.length_nil]; omega) (by rw [hr]; exact hmem')
    · rename_i h
      have hb' : (batch ++ [x]).length < size := by
        simp only [List.length_append, List.length_cons, List.length_nil] at h ⊢
        omega
      exact ih (batch ++ [x]) hb' hmem

lemma getLast_yieldBatchesAux {α : Type} (size : Nat) (hsize : 1 ≤ size) (batch l : List α)
    (hb : batch.length < size) {lb : List α}
    (hlast : (yieldBatchesAux size batch l).getLast? = some lb) :
    lb.length =
      if (batch.length + l.length) % size = 0 then size
      else (batch.length + l.length) % size := by
  induction l generalizing batch with
  | nil =>
    by_cases h : batch.isEmpty
    · simp [yieldBatchesAux, h] at hlast
    · simp [yieldBatchesAux, h] at hlast
      have h1 : 1 ≤ batch.length := by
        cases batch with
        | nil => simp at h
        | cons a as => simp
      subst hlast
      rw [if_neg]
      · simp [Nat.mod_eq_of_lt hb]
      · simp only [List.length_nil, Nat.add_zero]
        rw [Nat.mod_eq_of_lt hb]
        omega
  | cons x xs ih =>
    simp only [yieldBatchesAux] at hlast
    split at hlast
    · rename_i h
      have hsz : batch.length + 1 = size := by
        simp only [List.length_append, List.length_cons, List.length_nil] at h
        omega
      cases xs with
      | nil =>
        simp [yieldBatchesAux] at hlast
        subst hlast
        have hmod : (batch.length + (x :: ([] : List α)).length) % size = 0 := by
          have hx : batch.length + (x :: ([] : List α)).length = size := by
            simp only [List.length_cons, List.length_nil]
            omega
          rw [hx, Nat.mod_self]
        rw [if_pos hmod]
        simp only [List.length_append, List.length_cons, List.length_nil]
        omega
      | cons y ys =>
        cases hr : yieldBatchesAux size [] (y :: ys) with
        | nil => exact absurd hr (yieldBatchesAux_ne_nil size [] (by simp))
        | cons r rs =>
          rw [hr, List.getLast?_cons_cons] at hlast
          have hrec := ih [] (by simp only [List.length_nil]; omega) (by rw [hr]; exact hlast)
          simp only [List.length_nil, Nat.zero_add] at hrec
          have harith : batch.length + (x :: y :: ys).length = size + (y :: ys).length := by
            simp only [List.length_cons]
            omega
          rw [harith, Nat.add_mod_left]
          exact hrec
    · rename_i h
      have hb' : (batch ++ [x]).length < size := by
        simp only [List.length_append, List.length_cons, List.length_nil] at h ⊢
        omega
      have hrec := ih (batch ++ [x]) hb' hlast
      have harith : (batch ++ [x]).length + xs.length = batch.length + (x :: xs).length := by
        simp only [List.length_append, List.length_cons, List.length_nil]
        omega
      rw [harith] at hrec
      exact hrec

/-- Eliminating the accumulator: concatenating the yielded batches gives
back the input stream. -/
lemma flatten_yield_batches {α : Type} (l : List α) (size : Nat) :
    (yield_batches l size).flatten = l := by
  simpa using flatten_yieldBatchesAux size [] l

/-- Per-file batching then flattening twice is per-file record production
then flattening once. -/
lemma flatten_flatten_yield_batches {α β : Type} (g : α → List β) (bs : Nat) (l : List α) :
    ((l.map fun x => yield_batches (g x) bs).flatten).flatten = (l.map g).flatten := by
  induction l with
  | nil => simp
  | cons x xs ih => simp [flatten_yield_batches, ih]

/-! ## Substring lemmas -/

lemma strContains_append_left {s t u : PyStr} (h : strContains s t) :
    strContains (u ++ s) t := by
  obtain ⟨pre, post, hpp⟩ := h
  exact ⟨u ++ pre, post, by simp [hpp]⟩

lemma strContains_drop_left {s t u : PyStr} (h : strContains s (u ++ t)) :
    strContains s t := by
  obtain ⟨pre, post, hpp⟩ := h
  exact ⟨pre ++ u, post, by simp [hpp]⟩

lemma strContains_joinSep (sep : PyStr) (l : List PyStr) (x : PyStr) (hx : x ∈ l) :
    strContains (joinSep sep l) x := by
  induction l with
  | nil => simp at hx
  | cons a as ih =>
    cases as with
    | nil =>
      simp at hx
      subst hx
      exact ⟨[], [], by simp [joinSep]⟩
    | cons b bs =>
      rcases List.mem_cons.mp hx with rfl | hx'
      · exact ⟨[], sep ++ joinSep sep (b :: bs), by simp [joinSep]⟩
      · obtain ⟨pre, post, hpp⟩ := ih hx'
        exact ⟨a ++ sep ++ pre, post, by simp [joinSep, hpp]⟩

/-! ## Association-list lemmas -/

lemma lookupKey_filterKey_self {β : Type} (k : String) (l : List (String × β)) :
    lookupKey k (l.filter fun kv => kv.1 ≠ k) = none := by
  induction l with
  | nil => rfl
  | cons kv rest ih =>
    by_cases hk : kv.1 = k
    · simpa [List.filter_cons, hk] using ih
    · simpa [List.filter_cons, hk, lookupKey] using ih

lemma lookupKey_filterKey_ne {β : Type} (k t : String) (hk : k ≠ t) (l : List (String × β)) :
    lookupKey k (l.filter fun kv => kv.1 ≠ t) = lookupKey k l := by
  induction l with
  | nil => rfl
  | cons kv rest ih =>
    by_cases ht : kv.1 = t
    · have hne : kv.1 ≠ k := fun h => hk (h.symm.trans ht)
      rw [List.filter_cons, if_neg (by simp [ht])]
      rw [ih]
      simp only [lookupKey]
      rw [if_neg hne]
    · rw [List.filter_cons, if_pos (by simp [ht])]
      by_cases hkk : kv.1 = k
      · simp only [lookupKey]
        rw [if_pos hkk, if_pos hkk]
      · simp only [lookupKey]
        rw [if_neg hkk, if_neg hkk, ih]

/-! ## Wrapper lemmas on `yield_batches` -/

lemma length_yield_batches {α : Type} (l : List α) (size : Nat) (hsize : 1 ≤ size) :
    (yield_batches l size).length = (l.length + size - 1) / size := by
  simpa using length_yieldBatchesAux size hsize [] l (by simp only [List.length_nil]; omega)

lemma length_le_of_mem_yield_batches {α : Type} {l : List α} {size : Nat} (hsize : 1 ≤ size)
    {b : List α} (hmem : b ∈ yield_batches l size) : b.length ≤ size :=
  length_le_of_mem_yieldBatchesAux size [] l (by simp only [List.length_nil]; omega) hmem

lemma getLast_yield_batches {α : Type} {l : List α} {size : Nat} (hsize : 1 ≤ size)
    {lb : List α} (hlast : (yield_batches l size).getLast? = some lb) :
    lb.length = if l.length % size = 0 then size else l.length % size := by
  simpa using getLast_yieldBatchesAux size hsize [] l (by simp only [List.length_nil]; omega) hlast

lemma dropLast_yield_batches {α : Type} {l : List α} {size : Nat} (hsize : 1 ≤ size)
    {b : List α} (hmem : b ∈ (yield_batches l size).dropLast) : b.length = size :=
  length_eq_of_mem_dropLast_yieldBatchesAux size [] l (by simp only [List.length_nil]; omega) hmem

/-- A collection that `get_collection` reports as existing is left untouched
by `_ensure_collection`. -/
lemma ensure_collection_of_exists (st : QdrantState) (name : String) (dim : Nat)
    (cfg : VectorParams) (h : get_collection st name = some cfg) :
    ensure_collection st name dim = st := by
  simp [ensure_collection, h]

/-! ## Claim theorems -/

/-- C10: for every finite record sequence and every positive batch size B,
concatenating the yielded batches reproduces the input exactly (nothing
dropped, duplicated or reordered), and every batch except possibly the last
has exactly B records. -/
theorem c10_batches_partition_input (α : Type) (l : List α) (B : Nat) (hB : 1 ≤ B) :
    (yield_batches l B).flatten = l ∧
    ∀ b ∈ (yield_batches l B).dropLast, b.length = B := by
  refine ⟨flatten_yield_batches l B, ?_⟩
  intro b hb
  exact dropLast_yield_batches hB hb

theorem c10_batches_partition_input_witness :
    1 ≤ 2 ∧
    ((yield_batches [0, 1, 2, 3, 4] 2).flatten = [0, 1, 2, 3, 4] ∧
      ∀ b ∈ (yield_batches [0, 1, 2, 3, 4] 2).dropLast, b.length = 2) :=
  ⟨by decide, c10_batches_partition_input Nat [0, 1, 2, 3, 4] 2 (by decide)⟩

/-- C1 (counterexample): a run over two CSV files of one record each with
batch size 2 produces N = 2 records but issues 2 upsert calls, not
ceil(2/2) = 1 — batching restarts per file, so the run-level ceil(N/B)
count fails. -/
theorem c1_run_level_count_fails :
    (sentRecords twoCsvFs (some 2)).length = 2 ∧
    (upsertCalls twoCsvFs (some 2)).length = 2 ∧
    (upsertCalls twoCsvFs (some 2)).length ≠
      ((sentRecords twoCsvFs (some 2)).length + 2 - 1) / 2 := by
  refine ⟨?_, ?_, ?_⟩ <;> decide

/-- C1 (amended): for each single record stream of n records and batch size
B ≥ 1, the batching function issues exactly ceil(n/B) upsert calls, each of
at most B records, the last containing n mod B records (or B when B divides
n); over a whole run every upsert call still contains at most B records. -/
theorem c1_per_stream_batching (α : Type) (l : List α) (B : Nat) (hB : 1 ≤ B)
    (fs : FileSystem) :
    ((yield_batches l B).length = (l.length + B - 1) / B) ∧
    (∀ b ∈ yield_batches l B, b.length ≤ B) ∧
    (∀ lb, (yield_batches l B).getLast? = some lb →
      lb.length = if l.length % B = 0 then B else l.length % B) ∧
    (∀ call ∈ upsertCalls fs (some B), call.length ≤ B) := by
  refine ⟨length_yield_batches l B hB, ?_, ?_, ?_⟩
  · intro b hb
    exact length_le_of_mem_yield_batches hB hb
  · intro lb hlb
    exact getLast_yield_batches hB hlb
  · intro call hcall
    have hBne : resolveBatchSize (some B) = B := by
      simp [resolveBatchSize, show B ≠ 0 by omega]
    cases hroot : fs.rootExists with
    | false => simp [upsertCalls, ingest_data, hroot] at hcall
    | true =>
      simp only [upsertCalls, ingest_data, hroot, if_true, hBne, List.mem_append,
        List.mem_flatten, List.mem_map] at hcall
      rcases hcall with ⟨batches, ⟨p, hp, rfl⟩, hmem⟩ | ⟨batches, ⟨p, hp, rfl⟩, hmem⟩ <;>
        exact length_le_of_mem_yield_batches hB hmem

theorem c1_per_stream_batching_witness :
    1 ≤ 2 ∧
    (((yield_batches (List.replicate 5 0) 2).length = (5 + 2 - 1) / 2) ∧
      (∀ b ∈ yield_batches (List.replicate 5 0) 2, b.length ≤ 2) ∧
      (∀ lb, (yield_batches (List.replicate 5 0) 2).getLast? = some lb →
        lb.length = if (List.replicate 5 0).length % 2 = 0 then 2 else (List.replicate 5 0).length % 2) ∧
      (∀ call ∈ upsertCalls twoCsvFs (some 2), call.length ≤ 2)) := by
  refine ⟨by decide, ?_⟩
  have h := c1_per_stream_batching Nat (List.replicate 5 0) 2 (by decide) twoCsvFs
  simpa using h

/-- C7: when the data root does not exist, `ingest_data` fails with the
not-found error before any processing: no upsert call is issued and no
record is sent, however many files sit under the root. -/
theorem c7_missing_root_aborts (fs : FileSystem) (bs : Option Nat)
    (h : fs.rootExists = false) :
    ingest_data fs bs = .error (pyStr "Data root not found: " ++ fs.rootPath) ∧
    upsertCalls fs bs = [] ∧
    sentRecords fs bs = [] := by
  refine ⟨?_, ?_, ?_⟩ <;> simp [ingest_data, upsertCalls, sentRecords, h]

theorem c7_missing_root_aborts_witness :
    missingRootFs.rootExists = false ∧
    (ingest_data missingRootFs none =
        .error (pyStr "Data root not found: " ++ missingRootFs.rootPath) ∧
      upsertCalls missingRootFs none = [] ∧
      sentRecords missingRootFs none = []) :=
  ⟨rfl, c7_missing_root_aborts missingRootFs none rfl⟩

/-- C6: `_ensure_collection` is idempotent.  When the collection already
exists the service state is left unchanged (so a second call never alters
dimensionality or distance); running it twice equals running it once; only
when the collection is absent is it created, with the embedding
dimensionality and cosine distance. -/
theorem c6_ensure_collection_idempotent (st : QdrantState) (name : String) (dim : Nat) :
    (∀ cfg, get_collection st name = some cfg → ensure_collection st name dim = st) ∧
    (ensure_collection (ensure_collection st name dim) name dim =
      ensure_collection st name dim) ∧
    (get_collection st name = none →
      get_collection (ensure_collection st name dim) name = some ⟨dim, .cosine⟩) := by
  have hcreate : get_collection st name = none →
      get_collection (ensure_collection st name dim) name = some ⟨dim, .cosine⟩ := by
    intro hnone
    have hnone' : lookupKey name st.collections = none := hnone
    simp [ensure_collection, get_collection, hnone', recreate_collection, lookupKey]
  refine ⟨fun cfg hcfg => ensure_collection_of_exists st name dim cfg hcfg, ?_, hcreate⟩
  cases hg : get_collection st name with
  | some cfg =>
    rw [ensure_collection_of_exists st name dim cfg hg,
      ensure_collection_of_exists st name dim cfg hg]
  | none =>
    exact ensure_collection_of_exists _ name dim _ (hcreate hg)

theorem c6_ensure_collection_idempotent_witness :
    (get_collection oneCollectionSt "amazon_export" = some ⟨384, .cosine⟩) ∧
    (ensure_collection oneCollectionSt "amazon_export" 512 = oneCollectionSt) ∧
    (get_collection oneCollectionSt "other" = none) ∧
    (get_collection (ensure_collection oneCollectionSt "other" 384) "other" =
      some ⟨384, .cosine⟩) :=
  ⟨rfl,
   (c6_ensure_collection_idempotent oneCollectionSt "amazon_export" 512).1 ⟨384, .cosine⟩ rfl,
   rfl,
   (c6_ensure_collection_idempotent oneCollectionSt "other" 384).2.2 rfl⟩

/-- C8: `count` resolves the named or default collection and returns the
exact count of the client on success; a missing `count` attribute or any
client-level exception yields 0.  `store_count` is a total function, so the
operation never raises to its caller. -/
theorem c8_count_zero_on_failure (name : Option String) (selfColl : String)
    (clientCount : String → CountOutcome) :
    (∀ n, clientCount (name.getD selfColl) = .result (some n) →
      store_count name selfColl clientCount = n) ∧
    (clientCount (name.getD selfColl) = .result none →
      store_count name selfColl clientCount = 0) ∧
    (clientCount (name.getD selfColl) = .failure →
      store_count name selfColl clientCount = 0) := by
  refine ⟨?_, ?_, ?_⟩
  · intro n h
    simp [store_count, h]
  · intro h
    simp [store_count, h]
  · intro h
    simp [store_count, h]

theorem c8_count_zero_on_failure_witness :
    store_count none "amazon_export" (fun _ => .result (some 7)) = 7 ∧
    store_count (some "other") "amazon_export" (fun _ => .result none) = 0 ∧
    store_count none "amazon_export" (fun _ => .failure) = 0 :=
  ⟨(c8_count_zero_on_failure none "amazon_export" (fun _ => .result (some 7))).1 7 rfl,
   (c8_count_zero_on_failure (some "other") "amazon_export" (fun _ => .result none)).2.1 rfl,
   (c8_count_zero_on_failure none "amazon_export" (fun _ => .failure)).2.2 rfl⟩

/-- C2: a parsed list root of length N yields exactly N records; a dict
root yields one record per element of its first list-typed value, or
exactly one record (for the whole dict) when no value is a list; every
other root type yields exactly one record. -/
theorem c2_json_record_counts :
    (∀ (p : PyStr) (items : List Json),
      (iter_json_records p (.arr items)).length = items.length) ∧
    (∀ (p : PyStr) (fields : List (String × Json)) (l : List Json) (rest : List (List Json)),
      listValues fields = l :: rest →
      (iter_json_records p (.obj fields)).length = l.length) ∧
    (∀ (p : PyStr) (fields : List (String × Json)),
      listValues fields = [] →
      (iter_json_records p (.obj fields)).length = 1) ∧
    (∀ p, (iter_json_records p .null).length = 1) ∧
    (∀ p b, (iter_json_records p (.bool b)).length = 1) ∧
    (∀ p n, (iter_json_records p (.num n)).length = 1) ∧
    (∀ p s, (iter_json_records p (.str s)).length = 1) := by
  refine ⟨?_, ?_, ?_, ?_, ?_, ?_, ?_⟩ <;> intros <;>
    simp_all [iter_json_records, jsonItems]

theorem c2_json_record_counts_witness :
    ((iter_json_records (pyStr "f.json") (.arr [.null, .bool true])).length = 2) ∧
    (listValues [("a", .num 1), ("b", .arr [.null, .null, .null]), ("c", .arr [])] =
      [.null, .null, .null] :: [[]]) ∧
    ((iter_json_records (pyStr "f.json")
        (.obj [("a", .num 1), ("b", .arr [.null, .null, .null]), ("c", .arr [])])).length = 3) ∧
    (listValues [("a", .num 1)] = []) ∧
    ((iter_json_records (pyStr "f.json") (.obj [("a", .num 1)])).length = 1) ∧
    ((iter_json_records (pyStr "f.json") (.str "hello")).length = 1) :=
  ⟨c2_json_record_counts.1 (pyStr "f.json") [.null, .bool true],
   rfl,
   c2_json_record_counts.2.1 (pyStr "f.json")
     [("a", .num 1), ("b", .arr [.null, .null, .null]), ("c", .arr [])]
     [.null, .null, .null] [[]] rfl,
   rfl,
   c2_json_record_counts.2.2.1 (pyStr "f.json") [("a", .num 1)] rfl,
   c2_json_record_counts.2.2.2.2.2.2 (pyStr "f.json") "hello"⟩

/-- C3: a tabular field value longer than 300 characters appears in the
normalized text as its first 300 characters followed by a single ellipsis
character, a shorter value appears unmodified; a serialized JSON item
longer than 1000 characters appears as its first 1000 characters followed
by a single ellipsis, a shorter serialization appears unmodified. -/
theorem c3_truncation_bounds :
    (∀ (row : Row) (path : PyStr) (i : Nat) (k v : PyStr),
      (k, some v) ∈ row → 300 < v.length →
      strContains (row_to_text row path i) (v.take 300 ++ ['…'])) ∧
    (∀ (row : Row) (path : PyStr) (i : Nat) (k v : PyStr),
      (k, some v) ∈ row → v.length ≤ 300 →
      strContains (row_to_text row path i) v) ∧
    (∀ (item : Json) (path : PyStr) (i : Nat),
      1000 < (jsonDumps item).length →
      strContains (json_item_to_text item path i) ((jsonDumps item).take 1000 ++ ['…'])) ∧
    (∀ (item : Json) (path : PyStr) (i : Nat),
      (jsonDumps item).length ≤ 1000 →
      strContains (json_item_to_text item path i) (jsonDumps item)) := by
  refine ⟨?_, ?_, ?_, ?_⟩
  · intro row path i k v hmem hlong
    have hentry : k ++ pyStr ": " ++ (v.take 300 ++ ['…']) ∈ row.filterMap rowPair :=
      List.mem_filterMap.mpr ⟨(k, some v), hmem, by simp [rowPair, hlong]⟩
    exact strContains_append_left
      (strContains_drop_left (strContains_joinSep (pyStr " | ") _ _ hentry))
  · intro row path i k v hmem hshort
    have hentry : k ++ pyStr ": " ++ v ∈ row.filterMap rowPair :=
      List.mem_filterMap.mpr ⟨(k, some v), hmem, by simp [rowPair, show ¬ v.length > 300 by omega]⟩
    exact strContains_append_left
      (strContains_drop_left (strContains_joinSep (pyStr " | ") _ _ hentry))
  · intro item path i hlong
    refine ⟨pyStr "Source: " ++ path ++ pyStr " | Item: " ++ (toString i).data ++ pyStr "\n",
      [], ?_⟩
    simp only [json_item_to_text]
    rw [if_pos hlong]
    simp
  · intro item path i hshort
    refine ⟨pyStr "Source: " ++ path ++ pyStr " | Item: " ++ (toString i).data ++ pyStr "\n",
      [], ?_⟩
    simp only [json_item_to_text]
    rw [if_neg (by omega)]
    simp

theorem c3_truncation_bounds_witness :
    ((pyStr "k", some (List.replicate 301 'a')) ∈
      ([(pyStr "k", some (List.replicate 301 'a'))] : Row)) ∧
    (300 < (List.replicate 301 'a').length) ∧
    strContains
      (row_to_text [(pyStr "k", some (List.replicate 301 'a'))] (pyStr "f.csv") 0)
      ((List.replicate 301 'a').take 300 ++ ['…']) ∧
    ((pyStr "v").length ≤ 300) ∧
    strContains
      (row_to_text [(pyStr "k", some (pyStr "v"))] (pyStr "f.csv") 0) (pyStr "v") ∧
    (1000 < (jsonDumps (.str (String.mk (List.replicate 1100 'a')))).length) ∧
    strContains
      (json_item_to_text (.str (String.mk (List.replicate 1100 'a'))) (pyStr "f.json") 0)
      ((jsonDumps (.str (String.mk (List.replicate 1100 'a')))).take 1000 ++ ['…']) ∧
    ((jsonDumps (.str "")).length ≤ 1000) ∧
    strContains (json_item_to_text (.str "") (pyStr "f.json") 0) (jsonDumps (.str "")) := by
  have hesc : escapeChar 'a' = ['a'] := rfl
  have hlong : 1000 < (jsonDumps (Json.str (String.mk (List.replicate 1100 'a')))).length := by
    have h1 : jsonDumps (Json.str (String.mk (List.replicate 1100 'a'))) =
        dumpString (String.mk (List.replicate 1100 'a')) := by
      simp [jsonDumps]
    rw [h1]
    simp only [dumpString, List.length_cons, List.length_append]
    rw [List.map_replicate, hesc, List.length_flatten, List.map_replicate, List.sum_replicate]
    simp only [List.length_cons, List.length_nil, smul_eq_mul]
    omega
  have hshort : (jsonDumps (Json.str "")).length ≤ 1000 := by
    simp [jsonDumps, dumpString]
  have hrep : 300 < (List.replicate 301 'a').length := by
    simp only [List.length_replicate]
    omega
  refine ⟨List.mem_singleton.mpr rfl, hrep, ?_, by decide, ?_, hlong, ?_, hshort, ?_⟩
  · exact c3_truncation_bounds.1 [(pyStr "k", some (List.replicate 301 'a'))]
      (pyStr "f.csv") 0 (pyStr "k") (List.replicate 301 'a')
      (List.mem_singleton.mpr rfl) hrep
  · exact c3_truncation_bounds.2.1 [(pyStr "k", some (pyStr "v"))]
      (pyStr "f.csv") 0 (pyStr "k") (pyStr "v") (List.mem_singleton.mpr rfl) (by decide)
  · exact c3_truncation_bounds.2.2.1 (.str (String.mk (List.replicate 1100 'a')))
      (pyStr "f.json") 0 hlong
  · exact c3_truncation_bounds.2.2.2 (.str "") (pyStr "f.json") 0 hshort

/-- C4: with no local generation endpoint and no hosted API key configured,
`generate_answer` returns exactly the fixed no-LLM notice followed by the
first min(3, length) contexts joined by the divider, whatever the provider
call outcomes would have been. -/
theorem c4_fallback_concats_first_three (cfg : LLMConfig) (ollama : OllamaOutcome)
    (openaiContent : Option PyStr) (query : PyStr) (contexts : List PyStr)
    (h1 : cfg.ollama_host = none) (h2 : cfg.openai_api_key = none) :
    generate_answer cfg ollama openaiContent query contexts =
      noLLMNotice ++ joinSep contextDivider (contexts.take 3) ∧
    (contexts.take 3).length = min 3 contexts.length := by
  constructor
  · simp [generate_answer, h1, h2]
  · simp

theorem c4_fallback_concats_first_three_witness :
    (LLMConfig.mk none none).ollama_host = none ∧
    (LLMConfig.mk none none).openai_api_key = none ∧
    generate_answer ⟨none, none⟩ .failure none (pyStr "q")
        [pyStr "a", pyStr "b", pyStr "c", pyStr "d"] =
      noLLMNotice ++ joinSep contextDivider [pyStr "a", pyStr "b", pyStr "c"] ∧
    'a' ∈ joinSep contextDivider [pyStr "a", pyStr "b", pyStr "c"] ∧
    'b' ∈ joinSep contextDivider [pyStr "a", pyStr "b", pyStr "c"] ∧
    'c' ∈ joinSep contextDivider [pyStr "a", pyStr "b", pyStr "c"] ∧
    'd' ∉ joinSep contextDivider [pyStr "a", pyStr "b", pyStr "c"] :=
  ⟨rfl, rfl,
   (c4_fallback_concats_first_three ⟨none, none⟩ .failure none (pyStr "q")
      [pyStr "a", pyStr "b", pyStr "c", pyStr "d"] rfl rfl).1,
   by decide, by decide, by decide, by decide⟩

/-- C5: when the external query returns at most `limit` raw hits, search
returns at most `limit` results; every result comes from a raw hit, its
metadata holds no `text` key but agrees with the stored payload on every
other key, and its text is the `text` value of the payload (default `""`). -/
theorem c5_search_shapes_hits (hits : List RawHit) (limit : Nat)
    (hlen : hits.length ≤ limit) :
    (searchResults hits).length ≤ limit ∧
    ∀ r ∈ searchResults hits, ∃ h ∈ hits,
      r = searchResultOfHit h ∧
      lookupKey "text" r.metadata = none ∧
      (∀ k, k ≠ "text" → lookupKey k r.metadata = lookupKey k (h.payload.getD [])) ∧
      r.text = (lookupKey "text" (h.payload.getD [])).getD (.str "") := by
  constructor
  · simpa [searchResults] using hlen
  · intro r hr
    obtain ⟨h, hh, rfl⟩ := List.mem_map.mp hr
    refine ⟨h, hh, rfl, ?_, ?_, rfl⟩
    · exact lookupKey_filterKey_self "text" _
    · intro k hk
      exact lookupKey_filterKey_ne k "text" hk _

theorem c5_search_shapes_hits_witness :
    oneHit.length ≤ 5 ∧
    ((searchResults oneHit).length ≤ 5 ∧
      ∀ r ∈ searchResults oneHit, ∃ h ∈ oneHit,
        r = searchResultOfHit h ∧
        lookupKey "text" r.metadata = none ∧
        (∀ k, k ≠ "text" → lookupKey k r.metadata = lookupKey k (h.payload.getD [])) ∧
        r.text = (lookupKey "text" (h.payload.getD [])).getD (.str "")) :=
  ⟨by simp [oneHit], c5_search_shapes_hits oneHit 5 (by simp [oneHit])⟩

/-- C9 (counterexample): with a JSON file discovered before a CSV file, the
records sent to upsert do not follow the directory-walk discovery order —
the records of the CSV file come first although the walk discovered the JSON
file first. -/
theorem c9_traversal_order_fails :
    sentRecords mixedFs none ≠ (mixedFs.files.map fileRecords).flatten := by
  intro hEq
  have hmap := congrArg (List.map recordType) hEq
  revert hmap
  decide

/-- C9 (amended): all CSV files are processed before all JSON files; within
each file type, files are processed in traversal order and each file's
records appear contiguously in generation order. -/
theorem c9_per_type_traversal_order (fs : FileSystem) (bs : Option Nat)
    (hroot : fs.rootExists = true) :
    sentRecords fs bs =
      ((csvFiles fs).map fun p => iter_csv_records p.1 p.2).flatten ++
      ((jsonFiles fs).map jsonFileRecords).flatten := by
  simp only [sentRecords, upsertCalls, ingest_data, hroot, if_true]
  rw [List.flatten_append,
    flatten_flatten_yield_batches (fun p => iter_csv_records p.1 p.2)
      (resolveBatchSize bs) (csvFiles fs),
    flatten_flatten_yield_batches jsonFileRecords (resolveBatchSize bs) (jsonFiles fs)]

theorem c9_per_type_traversal_order_witness :
    mixedFs.rootExists = true ∧
    sentRecords mixedFs none =
      ((csvFiles mixedFs).map fun p => iter_csv_records p.1 p.2).flatten ++
      ((jsonFiles mixedFs).map jsonFileRecords).flatten :=
  ⟨rfl, c9_per_type_traversal_order mixedFs none rfl⟩

end DocRag
